import Mathlib

/-!
Verification of the apps-self-check repository (Go).

This file gives a shallow embedding of the three components the claims are
about, translated from the source:

* the asynchronous retry loop `commonStorer.AsyncQueryRetry`
  (src/pkg/storer/mysql.go, lines 782-826) and its specialisation
  `asyncSaveCheckResults` (src/pkg/storer/common.go, lines 62-104);
* the streaming longest-gap scan `mysqlStorer.AnalyzeLongestGapPerApp`
  (src/pkg/storer/mysql.go, lines 268-318);
* the concurrent probe merge of `checker.doChecks`
  (src/pkg/checker/self-check.go, lines 145-189);
* the idempotent shutdown signal of `mysqlStorer.Close`
  (src/pkg/storer/mysql.go, lines 153-159) built on `commonStorer`
  (done channel, `sync.Once`, `sync.WaitGroup`).

Modelling conventions: `time.Duration` and timestamps are `Int`
(nanoseconds); measurement values (`float64` in Go) are `Int`, since no
claim depends on floating-point arithmetic; goroutine scheduling and
context state are an explicit environment oracle (`RetryEnv`) that decides
which `select` case wins a wait and what `ctx.Err()` returns at each
observation point; `close` of an already-closed channel and a call of a
nil function are modelled as explicit faults (`Except`).
-/

namespace SelfCheck

/-- Identity of the context the retry loop is currently working with:
the caller's original context, or the k-th fresh dying-breath context
created by `context.WithTimeout(context.Background(), dyingBreathExpiration)`. -/
inductive CtxId where
  | orig : CtxId
  | fresh : Nat → CtxId
deriving DecidableEq, Repr

/-- Which case of the three-way `select` in the retry wait fires first:
the backoff timer `t.C`, the caller context's `ctx.Done()`, or the
storer's shared shutdown channel `c.done`. -/
inductive SelectWin where
  | timer : SelectWin
  | ctxDone : SelectWin
  | shutdown : SelectWin
deriving DecidableEq, Repr

/-- Environment oracle for one retry submission.  `selectWin i` is the
select case that wins the wait of iteration `i` (consulted only when the
delay is positive); `ctxErrPre c i` (resp. `ctxErrPost c i`) is whether
`ctx.Err() != nil` for context `c` at the pre-attempt (resp. post-attempt)
check of iteration `i`. -/
structure RetryEnv where
  selectWin : Nat → SelectWin
  ctxErrPre : CtxId → Nat → Bool
  ctxErrPost : CtxId → Nat → Bool

/-- Result of one retry-submission goroutine: the task invocations in
order (attempt number as passed to `f`, and the context the attempt ran
on), whether some attempt succeeded, the attempt numbers that produced a
warning-level log, and whether the terminal error-level log after the
loop was emitted. -/
structure RetryResult where
  attempts : List (Nat × CtxId)
  succeeded : Bool
  warnLogs : List Nat
  finalErrorLog : Bool
deriving DecidableEq, Repr

/-- The `dyingBreath` flag of iteration `i`: the delay was positive (so
the three-way `select` ran) and its wait was won by `ctx.Done()` or by
the shutdown channel rather than by the timer. -/
def dyingBreath (env : RetryEnv) (i : Nat) (delay : Int) : Prop :=
  0 < delay ∧ env.selectWin i ≠ SelectWin.timer

instance (env : RetryEnv) (i : Nat) (delay : Int) : Decidable (dyingBreath env i delay) :=
  inferInstanceAs (Decidable (_ ∧ _))

/-- The condition `dyingBreath || ctx.Err() != nil` guarding the
replacement of the working context by a fresh grace-period context
(src/pkg/storer/mysql.go, lines 805-811). -/
def replaceCtx (env : RetryEnv) (i : Nat) (cur : CtxId) (delay : Int) : Prop :=
  dyingBreath env i delay ∨ env.ctxErrPre cur i = true

instance (env : RetryEnv) (i : Nat) (cur : CtxId) (delay : Int) :
    Decidable (replaceCtx env i cur delay) :=
  inferInstanceAs (Decidable (_ ∨ _))

/-- Loop body of `commonStorer.AsyncQueryRetry` (src/pkg/storer/mysql.go,
lines 789-825), one constructor case per `range attemptSchedule`
iteration.  `i` is the iteration index, `cur` the current working
context, `fc` the number of fresh contexts created so far, `total` the
schedule length, and `fails n` whether `f(ctx, n)` returns a non-nil
error.  The empty case is the loop running to completion followed by the
final `ll.Error()` log. -/
def retryGo (env : RetryEnv) (fails : Nat → Bool) (total : Nat) :
    Nat → CtxId → Nat → List Int → RetryResult
  | _, _, _, [] => ⟨[], false, [], true⟩
  | i, cur, fc, delay :: rest =>
    let cur2 := if replaceCtx env i cur delay then CtxId.fresh fc else cur
    let fc2 := if replaceCtx env i cur delay then fc + 1 else fc
    if fails (i + 1) = false then
      ⟨[(i + 1, cur2)], true, [], false⟩
    else
      let warns := if i + 1 < total then [i + 1] else []
      if dyingBreath env i delay ∨ env.ctxErrPost cur2 i = true then
        ⟨[(i + 1, cur2)], false, warns, false⟩
      else
        let r := retryGo env fails total (i + 1) cur2 fc2 rest
        ⟨(i + 1, cur2) :: r.attempts, r.succeeded, warns ++ r.warnLogs, r.finalErrorLog⟩

/-- The goroutine spawned by `AsyncQueryRetry(ctx, attemptSchedule, f)`
for a non-nil task `f`, started on the caller's context with no fresh
context created yet. -/
def AsyncQueryRetry (env : RetryEnv) (fails : Nat → Bool) (schedule : List Int) : RetryResult :=
  retryGo env fails schedule.length 0 CtxId.orig 0 schedule

/-- Run-time fault of the Go program. -/
inductive GoPanic where
  | nilFunctionCall : GoPanic
  | closeOfClosedChannel : GoPanic
deriving DecidableEq, Repr

/-- The goroutine spawned by `AsyncQueryRetry` when the submitted task
`f` is nil.  The source performs no nil check: the first loop iteration
reaches the call `f(ctx, attempt)` (src/pkg/storer/mysql.go, line 812)
and faults there, whatever the wait and context-replacement logic did
before it; with an empty schedule the call site is never reached and the
loop falls through to the terminal error log. -/
def retryGoNilTask : List Int → Except GoPanic RetryResult
  | [] => Except.ok ⟨[], false, [], true⟩
  | _ :: _ => Except.error GoPanic.nilFunctionCall

/-- Observable effects of the synchronous part of `AsyncQueryRetry`
(src/pkg/storer/mysql.go, lines 787-789 and 826): what the call performs
before returning to the caller. -/
inductive SubmitEffect where
  | wgAdd : Nat → SubmitEffect
  | readLogger : SubmitEffect
  | spawnWorker : SubmitEffect
  | failFastNilTask : SubmitEffect
  | taskInvocation : SubmitEffect
deriving DecidableEq, Repr

/-- Synchronous effect trace of `AsyncQueryRetry(ctx, attemptSchedule, f)`:
`c.wg.Add(1)`, `ll := log.Ctx(ctx)`, `go func() {...}()`, return.  The
source inspects neither `f` nor the schedule before spawning the worker. -/
def asyncQueryRetrySubmit (_fIsNil : Bool) (_schedule : List Int) : List SubmitEffect :=
  [SubmitEffect.wgAdd 1, SubmitEffect.readLogger, SubmitEffect.spawnWorker]

/-- One entry of `CheckResults.Errors` (src/pkg/types/check/types.go). -/
structure CheckError where
  Check : String
  Error : String
deriving DecidableEq, Repr

/-- One entry of `CheckResults.Measurements` (src/pkg/types/check/types.go);
`Value` is `float64` in Go, modelled as `Int`. -/
structure CheckMeasurement where
  Check : String
  Value : Int
deriving DecidableEq, Repr

/-- The synthetic error entry `asyncSaveCheckResults` appends after a
failed save attempt (src/pkg/storer/common.go, lines 94-97). -/
def saveAttemptError (attempt : Nat) (msg : String) : CheckError :=
  ⟨"result_save_attempt_" ++ toString attempt, msg⟩

/-- Result of one `asyncSaveCheckResults` goroutine: the
`s.SaveCheckResults` invocations in order (attempt number, context, and
the `Errors` field of the `CheckResults` argument at that call), the
`Errors` field of the successfully persisted result if any attempt
succeeded, the attempt numbers that warned, and whether the terminal
error log ran. -/
structure SaveResult where
  calls : List (Nat × CtxId × List CheckError)
  persisted : Option (List CheckError)
  warnLogs : List Nat
  finalErrorLog : Bool
deriving DecidableEq, Repr

/-- Loop body of `asyncSaveCheckResults` (src/pkg/storer/common.go, lines
67-102).  Identical control flow to `retryGo`; the task is
`s.SaveCheckResults(ctx, result)` (`saveFails n` tells whether attempt
`n` returns a non-nil error, `msg n` its `err.Error()` string), and on
failure the loop appends a synthetic `result_save_attempt_<n>` entry to
the accumulating result's `Errors` (carried here as `errs`). -/
def saveGo (env : RetryEnv) (saveFails : Nat → Bool) (msg : Nat → String) (total : Nat) :
    Nat → CtxId → Nat → List CheckError → List Int → SaveResult
  | _, _, _, _, [] => ⟨[], none, [], true⟩
  | i, cur, fc, errs, delay :: rest =>
    let cur2 := if replaceCtx env i cur delay then CtxId.fresh fc else cur
    let fc2 := if replaceCtx env i cur delay then fc + 1 else fc
    if saveFails (i + 1) = false then
      ⟨[(i + 1, cur2, errs)], some errs, [], false⟩
    else
      let warns := if i + 1 < total then [i + 1] else []
      let errs2 := errs ++ [saveAttemptError (i + 1) (msg (i + 1))]
      if dyingBreath env i delay ∨ env.ctxErrPost cur2 i = true then
        ⟨[(i + 1, cur2, errs)], none, warns, false⟩
      else
        let r := saveGo env saveFails msg total (i + 1) cur2 fc2 errs2 rest
        ⟨(i + 1, cur2, errs) :: r.calls, r.persisted, warns ++ r.warnLogs, r.finalErrorLog⟩

/-- The goroutine spawned by `asyncSaveCheckResults(ctx, s, result,
attemptSchedule)`: starts on the caller's context with the submitted
result's error list `errs0`. -/
def asyncSaveCheckResults (env : RetryEnv) (saveFails : Nat → Bool) (msg : Nat → String)
    (errs0 : List CheckError) (schedule : List Int) : SaveResult :=
  saveGo env saveFails msg schedule.length 0 CtxId.orig 0 errs0 schedule

/-! ## Gap analyzer (`mysqlStorer.AnalyzeLongestGapPerApp`) -/

/-- Scan state of `AnalyzeLongestGapPerApp` (src/pkg/storer/mysql.go,
lines 288-290): `lastAppID`, `lastTS`, `maxInterval`, `maxIntervalTS`.
Go zero values: empty string for `lastAppID`, the zero time (modelled as
`0`) for the two timestamps; `maxInterval` is explicitly initialised to
`-1`. -/
structure GapState where
  lastAppID : String
  lastTS : Int
  maxInterval : Int
  maxIntervalTS : Int
deriving DecidableEq, Repr

/-- Initial scan state. -/
def gapInit : GapState := ⟨"", 0, -1, 0⟩

/-- The guarded flush `if lastAppID != "" && maxInterval > 0 {
output(lastAppID, maxInterval, maxIntervalTS) }` appearing at the app
boundary (lines 297-300) and after the row loop (lines 314-316). -/
def gapFlush (st : GapState) : List (String × Int × Int) :=
  if st.lastAppID ≠ "" ∧ 0 < st.maxInterval then
    [(st.lastAppID, st.maxInterval, st.maxIntervalTS)]
  else []

/-- One iteration of the row loop (src/pkg/storer/mysql.go, lines
291-313): returns the next state and the rows emitted by this iteration. -/
def gapStep (st : GapState) (appID : String) (ts : Int) :
    GapState × List (String × Int × Int) :=
  if appID ≠ st.lastAppID then
    (⟨appID, ts, -1, ts⟩, gapFlush st)
  else
    let interval := ts - st.lastTS
    if st.maxInterval < interval then
      (⟨st.lastAppID, ts, interval, ts⟩, [])
    else
      (⟨st.lastAppID, ts, st.maxInterval, st.maxIntervalTS⟩, [])

/-- The row loop followed by the final flush. -/
def gapLoop (st : GapState) : List (String × Int) → List (String × Int × Int)
  | [] => gapFlush st
  | (a, t) :: rows => (gapStep st a t).2 ++ gapLoop (gapStep st a t).1 rows

/-- `AnalyzeLongestGapPerApp` applied to the row stream the SQL query
returns (rows ordered by `app_id, ts ASC`), collecting the `output`
callback invocations in order. -/
def AnalyzeLongestGapPerApp (rows : List (String × Int)) : List (String × Int × Int) :=
  gapLoop gapInit rows

/-! ## Probe orchestrator (`checker.doChecks`) -/

/-- One probe's completed execution as seen by its merge critical
section (src/pkg/checker/self-check.go, lines 168-184): the probe name,
its outcome (`some e` when `ch.f(ctx)` returned error `e`, `none` on
success), the measurements it returned, the computed
`finish.Sub(start).Seconds()` value, and whether `ctx.Err() != nil` held
when the merge ran. -/
structure ProbeRun where
  name : String
  outcome : Option String
  measurements : List CheckMeasurement
  durVal : Int
  ctxErrAtMerge : Bool
deriving DecidableEq, Repr

/-- Shared accumulated result of one `doChecks` cycle (only the two
merged lists; `TS` and `Instance` are set once up front and never touched
by the merges). -/
structure MergedResult where
  Errors : List CheckError
  Measurements : List CheckMeasurement
deriving DecidableEq, Repr

/-- One probe's critical section (src/pkg/checker/self-check.go, lines
168-184): on error, suppress everything if the governing context is
already cancelled, otherwise record one labelled error; on success,
append the probe's measurements and one `<name>_duration` measurement. -/
def mergeProbe (r : MergedResult) (p : ProbeRun) : MergedResult :=
  match p.outcome with
  | some e =>
    if p.ctxErrAtMerge then r
    else ⟨r.Errors ++ [⟨p.name, e⟩], r.Measurements⟩
  | none =>
    ⟨r.Errors, r.Measurements ++ p.measurements ++ [⟨p.name ++ "_duration", p.durVal⟩]⟩

/-- `doChecks` merging, given the probes' critical sections in the order
they acquired the lock. -/
def doChecks (ps : List ProbeRun) : MergedResult :=
  ps.foldl mergeProbe ⟨[], []⟩

/-- Error entries probe `p`'s critical section appends. -/
def errContribution (p : ProbeRun) : List CheckError :=
  match p.outcome with
  | some e => if p.ctxErrAtMerge then [] else [⟨p.name, e⟩]
  | none => []

/-- Measurement entries probe `p`'s critical section appends. -/
def measContribution (p : ProbeRun) : List CheckMeasurement :=
  match p.outcome with
  | some _ => []
  | none => p.measurements ++ [⟨p.name ++ "_duration", p.durVal⟩]

/-! ## Shutdown signal (`mysqlStorer.Close` / `commonStorer`) -/

/-- State of the shutdown broadcast of a `commonStorer`: whether the
`done` channel has been closed, whether the `closeOnce` `sync.Once` has
run, and how many times `close(done)` actually executed. -/
structure CloseState where
  doneClosed : Bool
  onceUsed : Bool
  closeCount : Nat
deriving DecidableEq, Repr

/-- State after `commonStorer.init()`: open channel, unused once. -/
def closeInit : CloseState := ⟨false, false, 0⟩

/-- One call of `Close`'s signalling part, `m.closeOnce.Do(func() {
close(m.done) })` (src/pkg/storer/mysql.go, lines 154-156): `sync.Once`
skips the body on every call after the first; `close` of an
already-closed channel is a run-time fault. -/
def closeSignal (s : CloseState) : Except GoPanic CloseState :=
  if s.onceUsed then Except.ok s
  else if s.doneClosed then Except.error GoPanic.closeOfClosedChannel
  else Except.ok ⟨true, true, s.closeCount + 1⟩

/-- `n` successive calls of `Close`'s signalling part from a given state. -/
def closeSignalN : Nat → Except GoPanic CloseState → Except GoPanic CloseState
  | 0, s => s
  | n + 1, s => (closeSignalN n s).bind closeSignal

/-! ## Auxiliary definitions used by claim statements and witnesses -/

/-- The synthetic error entries for attempts `lo, lo+1, ..., lo+k-1`. -/
def synthErrs (msg : Nat → String) (lo : Nat) (k : Nat) : List CheckError :=
  (List.range' lo k).map (fun j => saveAttemptError j (msg j))

/-- Environment in which the caller's context never errors and neither
cancellation nor shutdown ever interrupts a retry wait. -/
def benignEnv : RetryEnv :=
  ⟨fun _ => SelectWin.timer, fun _ _ => false, fun _ _ => false⟩

/-- Environment in which the caller's context already carries an error
when the first retry iteration checks it, but no wait is ever
interrupted (only zero delays are used with it). -/
def erroredStartEnv : RetryEnv :=
  ⟨fun _ => SelectWin.timer,
   fun c i => decide (c = CtxId.orig) && decide (i = 0),
   fun _ _ => false⟩

/-- Environment in which the shared shutdown signal wins the retry wait
of iteration 1. -/
def shutdownAtOneEnv : RetryEnv :=
  ⟨fun i => if i = 1 then SelectWin.shutdown else SelectWin.timer,
   fun _ _ => false, fun _ _ => false⟩

/-- Number of task attempts a retry run executed on a replacement
(dying-breath) context rather than on the caller's original context. -/
def attemptsOnFresh (r : RetryResult) : Nat :=
  (r.attempts.filter (fun p => decide (p.2 ≠ CtxId.orig))).length

/-- Adjacent gaps of one app's timestamp block `t :: ts`: the list
`[ts₀ - t, ts₁ - ts₀, ...]`, the differences of temporally adjacent rows. -/
def blockGaps (t : Int) (ts : List Int) : List Int :=
  List.zipWith (fun a b => b - a) (t :: ts) ts

/-- One step of the per-block `(lastTS, maxInterval, maxIntervalTS)`
update performed by the same-app branch of the row loop. -/
def blockFoldStep (s : Int × Int × Int) (u : Int) : Int × Int × Int :=
  if s.2.1 < u - s.1 then (u, u - s.1, u) else (u, s.2.1, s.2.2)

/-- The `(lastTS, maxInterval, maxIntervalTS)` triple after scanning one
app's block `t :: ts`, starting from `lastTS = t`, `maxInterval = -1`,
`maxIntervalTS = t` as the boundary reset does. -/
def blockFold (t : Int) (ts : List Int) : Int × Int × Int :=
  ts.foldl blockFoldStep (t, -1, t)

/-- The row stream of a list of app blocks `(appID, firstTS, laterTS)`:
each block contributes its rows in order, so the stream is grouped by
`app_id` by construction. -/
def streamOf (blocks : List (String × Int × List Int)) : List (String × Int) :=
  blocks.flatMap (fun b => (b.2.1 :: b.2.2).map (fun u => (b.1, u)))

/-- What the scan emits for one app block: a record exactly when the
block's tracked app id is non-empty and its maximal interval is strictly
positive. -/
def emitOf (b : String × Int × List Int) : Option (String × Int × Int) :=
  if b.1 ≠ "" ∧ 0 < (blockFold b.2.1 b.2.2).2.1 then
    some (b.1, (blockFold b.2.1 b.2.2).2.1, (blockFold b.2.1 b.2.2).2.2)
  else none

/-- Timestamps weakly ascending: every adjacent pair is ordered. -/
def tsAscending : List Int → Bool
  | [] => true
  | [_] => true
  | a :: b :: rest => decide (a ≤ b) && tsAscending (b :: rest)

/-- The pair `(g, endTS)` is the maximum adjacent gap of the block
`t :: ts` together with the ending timestamp of its first-seen maximal
gap: `g` bounds every adjacent gap, is attained at some index `k` whose
gap ends at `endTS`, and every earlier gap is strictly below `g`. -/
def isMaxGapEmission (t : Int) (ts : List Int) (g endTS : Int) : Prop :=
  (∀ u ∈ blockGaps t ts, u ≤ g)
  ∧ ∃ k : Nat, (blockGaps t ts)[k]? = some g ∧ ts[k]? = some endTS
      ∧ ∀ j : Nat, j < k → ∀ u, (blockGaps t ts)[j]? = some u → u < g

/-! ## Lemmas about the retry loop -/

/-- Under a never-cancelled caller context and silent shutdown signal, a
task that always fails is attempted once per schedule entry, on the
original context, with consecutive attempt numbers, ending in the
terminal error log. -/
lemma retryGo_benign_allFail (env : RetryEnv) (fails : Nat → Bool) (total : Nat)
    (hsel : ∀ i, env.selectWin i = SelectWin.timer)
    (hpre : ∀ i, env.ctxErrPre CtxId.orig i = false)
    (hpost : ∀ i, env.ctxErrPost CtxId.orig i = false)
    (hfail : ∀ n, fails n = true) :
    ∀ (rest : List Int) (i fc : Nat),
      retryGo env fails total i CtxId.orig fc rest =
        ⟨(List.range' (i + 1) rest.length).map (fun n => (n, CtxId.orig)), false,
         (List.range' (i + 1) rest.length).filter (fun n => decide (n < total)), true⟩ := by
  intro rest
  induction rest with
  | nil => intro i fc; simp [retryGo]
  | cons d rest ih =>
    intro i fc
    simp [retryGo, dyingBreath, replaceCtx, hsel i, hpre i, hpost i, hfail (i + 1),
      ih (i + 1) fc, List.range'_succ, List.filter_cons]
    split <;> simp

/-- Unfolding `synthErrs` at the front. -/
lemma synthErrs_succ (msg : Nat → String) (lo k : Nat) :
    synthErrs msg lo (k + 1) = saveAttemptError lo (msg lo) :: synthErrs msg (lo + 1) k := by
  simp [synthErrs, List.range'_succ]

/-- Unfolding `synthErrs` at the back. -/
lemma synthErrs_snoc (msg : Nat → String) (lo k : Nat) :
    synthErrs msg lo (k + 1) = synthErrs msg lo k ++ [saveAttemptError (lo + k) (msg (lo + k))] := by
  simp [synthErrs, List.range'_concat]

/-- Under a never-cancelled caller context and silent shutdown signal, a
save that always fails is called once per schedule entry, on the original
context, each call carrying the original errors extended by the synthetic
entries of the previous failed attempts; nothing is persisted and the
terminal error log runs. -/
lemma saveGo_benign_allFail (env : RetryEnv) (sf : Nat → Bool) (msg : Nat → String) (total : Nat)
    (hsel : ∀ i, env.selectWin i = SelectWin.timer)
    (hpre : ∀ i, env.ctxErrPre CtxId.orig i = false)
    (hpost : ∀ i, env.ctxErrPost CtxId.orig i = false)
    (hfail : ∀ n, sf n = true) :
    ∀ (rest : List Int) (i fc : Nat) (errs : List CheckError),
      saveGo env sf msg total i CtxId.orig fc errs rest =
        ⟨(List.range rest.length).map
            (fun k => (i + 1 + k, CtxId.orig, errs ++ synthErrs msg (i + 1) k)), none,
         (List.range' (i + 1) rest.length).filter (fun n => decide (n < total)), true⟩ := by
  intro rest
  induction rest with
  | nil => intro i fc errs; simp [saveGo]
  | cons d rest ih =>
    intro i fc errs
    simp [saveGo, dyingBreath, replaceCtx, hsel i, hpre i, hpost i, hfail (i + 1),
      ih (i + 1) fc (errs ++ [saveAttemptError (i + 1) (msg (i + 1))]),
      List.range'_succ, List.filter_cons, List.range_succ_eq_map, List.map_map,
      synthErrs_succ]
    constructor
    · exact ⟨by simp [synthErrs], fun a ha => by omega⟩
    · split <;> simp

/-- Under a never-cancelled caller context and silent shutdown, if the
save fails on the `K` attempts after offset `i` and succeeds on the next
one, the run makes exactly `K + 1` calls with accumulating synthetic
errors and persists the accumulated list of the successful call. -/
lemma saveGo_benign_failK (env : RetryEnv) (sf : Nat → Bool) (msg : Nat → String) (total : Nat)
    (hsel : ∀ i, env.selectWin i = SelectWin.timer)
    (hpre : ∀ i, env.ctxErrPre CtxId.orig i = false)
    (hpost : ∀ i, env.ctxErrPost CtxId.orig i = false) :
    ∀ (K : Nat) (rest : List Int) (i fc : Nat) (errs : List CheckError),
      (∀ n, i < n → n ≤ i + K → sf n = true) →
      sf (i + K + 1) = false →
      K < rest.length →
      (saveGo env sf msg total i CtxId.orig fc errs rest).calls
          = (List.range (K + 1)).map
              (fun k => (i + 1 + k, CtxId.orig, errs ++ synthErrs msg (i + 1) k))
      ∧ (saveGo env sf msg total i CtxId.orig fc errs rest).persisted
          = some (errs ++ synthErrs msg (i + 1) K)
      ∧ (saveGo env sf msg total i CtxId.orig fc errs rest).finalErrorLog = false := by
  intro K
  induction K with
  | zero =>
    intro rest i fc errs _hfails hsucc hlen
    cases rest with
    | nil => simp at hlen
    | cons d rest =>
      rw [show i + 0 + 1 = i + 1 by omega] at hsucc
      simp [saveGo, dyingBreath, replaceCtx, hsel i, hpre i, hsucc, synthErrs]
      rw [show List.range 1 = [0] from rfl]
      simp [synthErrs]
  | succ K ih =>
    intro rest i fc errs hfails hsucc hlen
    cases rest with
    | nil => simp at hlen
    | cons d rest =>
      have hf1 : sf (i + 1) = true := hfails (i + 1) (by omega) (by omega)
      have hrec := ih rest (i + 1) fc (errs ++ [saveAttemptError (i + 1) (msg (i + 1))])
        (fun n h1 h2 => hfails n (by omega) (by omega))
        (by rw [show i + 1 + K + 1 = i + (K + 1) + 1 by omega]; exact hsucc)
        (by simpa using Nat.lt_of_succ_lt_succ hlen)
      simp [saveGo, dyingBreath, replaceCtx, hsel i, hpre i, hpost i, hf1,
        hrec.1, hrec.2.1, hrec.2.2,
        List.range_succ_eq_map, List.map_map, synthErrs_succ]
      exact ⟨by simp [synthErrs], fun a ha => by omega⟩

/-- With a positive delay whose wait is not won by the timer (the
dying-breath interruption), the current iteration's attempt is the last:
exactly one attempt runs in it and in all later iterations combined. -/
lemma retryGo_dying_one_attempt (env : RetryEnv) (fails : Nat → Bool) (total i fc : Nat)
    (cur : CtxId) (d : Int) (rest : List Int)
    (hd : 0 < d) (hw : env.selectWin i ≠ SelectWin.timer) :
    (retryGo env fails total i cur fc (d :: rest)).attempts.length = 1 := by
  have hdy : dyingBreath env i d := ⟨hd, hw⟩
  simp [retryGo, replaceCtx, hdy]
  split <;> rfl

/-- Any member of the attempt list of one unfolding of the loop is
either the current iteration's attempt, run on the (possibly replaced)
working context, or an attempt of the remaining iterations started on
that context. -/
lemma retryGo_mem_attempts_cons (env : RetryEnv) (fails : Nat → Bool)
    (total i fc : Nat) (cur : CtxId) (d : Int) (rest : List Int) (p : Nat × CtxId)
    (hp : p ∈ (retryGo env fails total i cur fc (d :: rest)).attempts) :
    p = (i + 1, if replaceCtx env i cur d then CtxId.fresh fc else cur)
    ∨ p ∈ (retryGo env fails total (i + 1)
        (if replaceCtx env i cur d then CtxId.fresh fc else cur)
        (if replaceCtx env i cur d then fc + 1 else fc) rest).attempts := by
  by_cases hrep : replaceCtx env i cur d
  · simp only [retryGo, if_pos hrep] at hp ⊢
    split at hp
    · exact Or.inl (by simpa using hp)
    · split at hp
      · exact Or.inl (by simpa using hp)
      · exact List.mem_cons.mp hp
  · simp only [retryGo, if_neg hrep] at hp ⊢
    split at hp
    · exact Or.inl (by simpa using hp)
    · split at hp
      · exact Or.inl (by simpa using hp)
      · exact List.mem_cons.mp hp

/-- Every attempt executed on the caller's original context happened in
an iteration whose pre-attempt check found the context error-free (and
the loop was still working on the original context). -/
lemma retryGo_attempt_on_orig (env : RetryEnv) (fails : Nat → Bool) (total : Nat) :
    ∀ (rest : List Int) (i fc : Nat) (cur : CtxId) (p : Nat × CtxId),
      p ∈ (retryGo env fails total i cur fc rest).attempts → p.2 = CtxId.orig →
      cur = CtxId.orig ∧ env.ctxErrPre CtxId.orig (p.1 - 1) = false := by
  intro rest
  induction rest with
  | nil => intro i fc cur p hp; simp [retryGo] at hp
  | cons d rest ih =>
    intro i fc cur p hp hporig
    by_cases hrep : replaceCtx env i cur d
    · rcases retryGo_mem_attempts_cons env fails total i fc cur d rest p hp with hh | ht
      · rw [if_pos hrep] at hh
        subst hh
        simp at hporig
      · simp only [if_pos hrep] at ht
        have hrec := ih (i + 1) (fc + 1) (CtxId.fresh fc) p ht hporig
        exact absurd hrec.1 (by simp)
    · have herr : env.ctxErrPre cur i = false :=
        Bool.eq_false_iff.mpr (fun h => hrep (Or.inr h))
      rcases retryGo_mem_attempts_cons env fails total i fc cur d rest p hp with hh | ht
      · rw [if_neg hrep] at hh
        subst hh
        simp only at hporig
        subst hporig
        simpa using herr
      · simp only [if_neg hrep] at ht
        exact ih (i + 1) fc cur p ht hporig

/-! ## Claims about the retry subsystem -/

/-- **C1.** For every backoff schedule of length `N` and a task failing
on all attempts, if the caller's context never errors and the shutdown
signal never fires, `AsyncQueryRetry` (and `asyncSaveCheckResults`)
invokes the task exactly `N` times, with attempt numbers `1..N` in
order, all on the original context, never an `N+1`-th time, and the
submission ends with the terminal error log and no success. -/
theorem claim1_exactly_n_attempts (env : RetryEnv) (fails : Nat → Bool) (msg : Nat → String)
    (errs0 : List CheckError) (schedule : List Int)
    (hsel : ∀ i, env.selectWin i = SelectWin.timer)
    (hpre : ∀ i, env.ctxErrPre CtxId.orig i = false)
    (hpost : ∀ i, env.ctxErrPost CtxId.orig i = false)
    (hfail : ∀ n, fails n = true) :
    (AsyncQueryRetry env fails schedule).attempts
        = (List.range' 1 schedule.length).map (fun n => (n, CtxId.orig))
    ∧ (AsyncQueryRetry env fails schedule).attempts.length = schedule.length
    ∧ (AsyncQueryRetry env fails schedule).succeeded = false
    ∧ (AsyncQueryRetry env fails schedule).finalErrorLog = true
    ∧ (asyncSaveCheckResults env fails msg errs0 schedule).calls.map (fun c => c.1)
        = List.range' 1 schedule.length
    ∧ (asyncSaveCheckResults env fails msg errs0 schedule).finalErrorLog = true := by
  have h1 := retryGo_benign_allFail env fails schedule.length hsel hpre hpost hfail schedule 0 0
  have h2 := saveGo_benign_allFail env fails msg schedule.length hsel hpre hpost hfail
    schedule 0 0 errs0
  unfold AsyncQueryRetry asyncSaveCheckResults
  rw [h1, h2]
  refine ⟨rfl, by simp, rfl, rfl, ?_, rfl⟩
  simp [List.map_map, Function.comp_def, List.range'_eq_map_range, Nat.add_comm]

/-- **C1 witness.** The theorem at the schedule `[0, 1]` under the
benign environment with an always-failing task. -/
theorem claim1_witness :
    (∀ i, benignEnv.selectWin i = SelectWin.timer)
    ∧ (∀ i, benignEnv.ctxErrPre CtxId.orig i = false)
    ∧ (AsyncQueryRetry benignEnv (fun _ => true) [0, 1]).attempts
        = [(1, CtxId.orig), (2, CtxId.orig)]
    ∧ (AsyncQueryRetry benignEnv (fun _ => true) [0, 1]).finalErrorLog = true := by
  have h := claim1_exactly_n_attempts benignEnv (fun _ => true) (fun _ => "e") [] [0, 1]
    (fun _ => rfl) (fun _ => rfl) (fun _ => rfl) (fun _ => rfl)
  exact ⟨fun _ => rfl, fun _ => rfl, by rw [h.1]; rfl, h.2.2.2.1⟩

/-- **C10.** For an empty backoff schedule the task (and the save) is
never invoked: the submission finishes immediately with zero attempts,
zero warning logs, and only the terminal error log. -/
theorem claim10_empty_schedule (env : RetryEnv) (fails : Nat → Bool) (msg : Nat → String)
    (errs0 : List CheckError) :
    AsyncQueryRetry env fails [] = ⟨[], false, [], true⟩
    ∧ asyncSaveCheckResults env fails msg errs0 [] = ⟨[], none, [], true⟩ :=
  ⟨rfl, rfl⟩

/-- **C3 counterexample.** With the caller's context already errored at
submission (no wait interruption: all delays are zero) and an
always-failing task over the schedule `[0, 0]`, the working context is
replaced by a fresh grace context at the first iteration, and then TWO
task attempts execute before the submission completes — not exactly one.
The schedule is exhausted (terminal error log), contradicting the claim
that exactly one more bounded attempt follows a replacement. -/
theorem claim3_counterexample :
    replaceCtx erroredStartEnv 0 CtxId.orig 0
    ∧ (AsyncQueryRetry erroredStartEnv (fun _ => true) [0, 0]).attempts
        = [(1, CtxId.fresh 0), (2, CtxId.fresh 0)]
    ∧ attemptsOnFresh (AsyncQueryRetry erroredStartEnv (fun _ => true) [0, 0]) = 2
    ∧ (AsyncQueryRetry erroredStartEnv (fun _ => true) [0, 0]).finalErrorLog = true := by
  refine ⟨Or.inr (by decide), by decide, by decide, by decide⟩

/-- **C3 (amended).** When the working context is replaced because the
retry wait was interrupted by cancellation or shutdown (a dying-breath
iteration), exactly one task attempt executes in that iteration and all
later ones combined, so the remaining schedule is never run down after a
dying breath.  A replacement triggered only by a pre-existing context
error may be followed by further attempts, but those run on the fresh
grace context: no attempt ever executes on the original context unless
its pre-attempt error check came back clean. -/
theorem claim3_amended :
    (∀ (env : RetryEnv) (fails : Nat → Bool) (total i fc : Nat) (cur : CtxId)
        (d : Int) (rest : List Int),
      0 < d → env.selectWin i ≠ SelectWin.timer →
      (retryGo env fails total i cur fc (d :: rest)).attempts.length = 1)
    ∧ (∀ (env : RetryEnv) (fails : Nat → Bool) (schedule : List Int) (p : Nat × CtxId),
      p ∈ (AsyncQueryRetry env fails schedule).attempts → p.2 = CtxId.orig →
      env.ctxErrPre CtxId.orig (p.1 - 1) = false) :=
  ⟨fun env fails total i fc cur d rest hd hw =>
    retryGo_dying_one_attempt env fails total i fc cur d rest hd hw,
   fun env fails schedule p hp h2 =>
    (retryGo_attempt_on_orig env fails schedule.length schedule 0 0 CtxId.orig p hp h2).2⟩

/-- **C3 witness.** The dying-breath part at a schedule whose second
wait is interrupted by shutdown, and the original-context part at the
benign environment. -/
theorem claim3_witness :
    (0 : Int) < 5
    ∧ shutdownAtOneEnv.selectWin 1 ≠ SelectWin.timer
    ∧ (retryGo shutdownAtOneEnv (fun _ => true) 4 1 CtxId.orig 0 [5, 5, 5]).attempts.length = 1
    ∧ (2, CtxId.orig) ∈ (AsyncQueryRetry benignEnv (fun _ => true) [0, 0]).attempts
    ∧ benignEnv.ctxErrPre CtxId.orig ((2 : Nat) - 1) = false :=
  ⟨by decide, by decide,
   claim3_amended.1 shutdownAtOneEnv (fun _ => true) 4 1 0 CtxId.orig 5 [5, 5]
     (by decide) (by decide),
   by decide,
   claim3_amended.2 benignEnv (fun _ => true) [0, 0] (2, CtxId.orig) (by decide) rfl⟩

/-- **C8 counterexample.** `AsyncQueryRetry` performs no nil-task check:
its synchronous effect trace is identical for a nil and a non-nil task
and contains no fail-fast step, while the spawned worker faults with a
nil-function call at the first attempt — i.e. mid-retry inside the
asynchronous worker, not at submission time. -/
theorem claim8_counterexample :
    asyncQueryRetrySubmit true [0] = asyncQueryRetrySubmit false [0]
    ∧ SubmitEffect.failFastNilTask ∉ asyncQueryRetrySubmit true [0]
    ∧ retryGoNilTask [0] = Except.error GoPanic.nilFunctionCall :=
  ⟨rfl, by decide, rfl⟩

/-- **C8 (amended).** Submitting any task — nil or not — returns
immediately after incrementing the wait group, reading the logger and
spawning the worker, with no attempt executed and no submission-time
validation; a nil task faults inside the asynchronous worker at the
first attempt of any nonempty schedule (and never runs at all on an
empty one). -/
theorem claim8_amended (fIsNil : Bool) (schedule : List Int) :
    asyncQueryRetrySubmit fIsNil schedule
        = [SubmitEffect.wgAdd 1, SubmitEffect.readLogger, SubmitEffect.spawnWorker]
    ∧ SubmitEffect.taskInvocation ∉ asyncQueryRetrySubmit fIsNil schedule
    ∧ SubmitEffect.failFastNilTask ∉ asyncQueryRetrySubmit fIsNil schedule
    ∧ (∀ (d : Int) (rest : List Int),
        retryGoNilTask (d :: rest) = Except.error GoPanic.nilFunctionCall)
    ∧ retryGoNilTask [] = Except.ok ⟨[], false, [], true⟩ :=
  ⟨rfl, by simp [asyncQueryRetrySubmit], by simp [asyncQueryRetrySubmit],
   fun _ _ => rfl, rfl⟩

/-- **C4.** If the save fails on attempts `1..K` and succeeds on attempt
`K+1` (under a never-cancelled context), the successfully persisted
result carries the original error list followed by exactly the `K`
synthetic `result_save_attempt_1 .. result_save_attempt_K` entries in
order — none for the successful final attempt — and the error list
passed to the save is append-only across the retries: call `k+1` extends
call `k` by exactly one synthetic entry, so no prior failure is lost. -/
theorem claim4_synthetic_retry_errors (env : RetryEnv) (saveFails : Nat → Bool)
    (msg : Nat → String) (errs0 : List CheckError) (schedule : List Int) (K : Nat)
    (hsel : ∀ i, env.selectWin i = SelectWin.timer)
    (hpre : ∀ i, env.ctxErrPre CtxId.orig i = false)
    (hpost : ∀ i, env.ctxErrPost CtxId.orig i = false)
    (hfails : ∀ n, 1 ≤ n → n ≤ K → saveFails n = true)
    (hsucc : saveFails (K + 1) = false)
    (hlen : K < schedule.length) :
    (asyncSaveCheckResults env saveFails msg errs0 schedule).persisted
        = some (errs0 ++ synthErrs msg 1 K)
    ∧ (asyncSaveCheckResults env saveFails msg errs0 schedule).calls
        = (List.range (K + 1)).map
            (fun k => (k + 1, CtxId.orig, errs0 ++ synthErrs msg 1 k))
    ∧ (∀ c ∈ (asyncSaveCheckResults env saveFails msg errs0 schedule).calls,
        ∃ t, c.2.2 = errs0 ++ t)
    ∧ (∀ k, synthErrs msg 1 (k + 1)
        = synthErrs msg 1 k ++ [saveAttemptError (k + 1) (msg (k + 1))]) := by
  have h := saveGo_benign_failK env saveFails msg schedule.length hsel hpre hpost
    K schedule 0 0 errs0 (fun n h1 h2 => hfails n (by omega) (by omega))
    (by simpa using hsucc) hlen
  unfold asyncSaveCheckResults
  refine ⟨by simpa using h.2.1, by simpa [Nat.add_comm] using h.1, ?_, ?_⟩
  · intro c hc
    rw [h.1] at hc
    simp only [List.mem_map] at hc
    obtain ⟨k, _, hk⟩ := hc
    exact ⟨synthErrs msg 1 k, by rw [← hk]⟩
  · intro k
    simpa [Nat.add_comm] using synthErrs_snoc msg 1 k

/-- **C4 witness.** Two failures then success over the schedule
`[0, 0, 0]`, starting from one original probe error. -/
theorem claim4_witness :
    ((fun n => decide (n ≤ 2)) (2 + 1) = false)
    ∧ (2 : Nat) < ([0, 0, 0] : List Int).length
    ∧ (asyncSaveCheckResults benignEnv (fun n => decide (n ≤ 2)) (fun _ => "boom")
          [⟨"dns", "fail"⟩] [0, 0, 0]).persisted
        = some [⟨"dns", "fail"⟩, ⟨"result_save_attempt_1", "boom"⟩,
                ⟨"result_save_attempt_2", "boom"⟩] := by
  have h := claim4_synthetic_retry_errors benignEnv (fun n => decide (n ≤ 2)) (fun _ => "boom")
    [⟨"dns", "fail"⟩] [0, 0, 0] 2
    (fun _ => rfl) (fun _ => rfl) (fun _ => rfl)
    (fun n h1 h2 => by revert h1 h2; revert n; decide)
    (by decide) (by decide)
  exact ⟨by decide, by decide, by rw [h.1]; decide⟩

/-! ## Claim about the shutdown signal -/

/-- **C7.** Calling `Close`'s signalling part any positive number of
times from a freshly initialised storer never faults and closes the
`done` channel exactly once: the second and later calls are no-ops with
respect to the shutdown broadcast. -/
theorem claim7_close_idempotent (n : Nat) (hn : 1 ≤ n) :
    closeSignalN n (Except.ok closeInit) = Except.ok ⟨true, true, 1⟩ := by
  induction n with
  | zero => omega
  | succ m ih =>
    cases Nat.eq_zero_or_pos m with
    | inl h0 => subst h0; rfl
    | inr hpos =>
      unfold closeSignalN
      rw [ih hpos]
      rfl

/-- **C7 witness.** Two calls: the second is a no-op, the channel is
closed exactly once and nothing faults. -/
theorem claim7_witness :
    (1 : Nat) ≤ 2 ∧ closeSignalN 2 (Except.ok closeInit) = Except.ok ⟨true, true, 1⟩ :=
  ⟨by decide, claim7_close_idempotent 2 (by decide)⟩

/-! ## Lemmas about the probe merge -/

/-- One merge appends exactly the probe's error contribution. -/
lemma mergeProbe_errors (r : MergedResult) (p : ProbeRun) :
    (mergeProbe r p).Errors = r.Errors ++ errContribution p := by
  cases ho : p.outcome with
  | none => simp [mergeProbe, errContribution, ho]
  | some e => by_cases hc : p.ctxErrAtMerge <;> simp [mergeProbe, errContribution, ho, hc]

/-- One merge appends exactly the probe's measurement contribution. -/
lemma mergeProbe_measurements (r : MergedResult) (p : ProbeRun) :
    (mergeProbe r p).Measurements = r.Measurements ++ measContribution p := by
  cases ho : p.outcome with
  | none => simp [mergeProbe, measContribution, ho]
  | some e => by_cases hc : p.ctxErrAtMerge <;> simp [mergeProbe, measContribution, ho, hc]

/-- The merged error list is the concatenation, in completion order, of
the probes' error contributions. -/
lemma doChecks_errors : ∀ (ps : List ProbeRun) (r0 : MergedResult),
    (ps.foldl mergeProbe r0).Errors = r0.Errors ++ ps.flatMap errContribution := by
  intro ps
  induction ps with
  | nil => intro r0; simp
  | cons p ps ih =>
    intro r0
    rw [List.foldl_cons, ih, mergeProbe_errors]
    simp

/-- The merged measurement list is the concatenation, in completion
order, of the probes' measurement contributions. -/
lemma doChecks_measurements : ∀ (ps : List ProbeRun) (r0 : MergedResult),
    (ps.foldl mergeProbe r0).Measurements = r0.Measurements ++ ps.flatMap measContribution := by
  intro ps
  induction ps with
  | nil => intro r0; simp
  | cons p ps ih =>
    intro r0
    rw [List.foldl_cons, ih, mergeProbe_measurements]
    simp

/-- Distinct names give distinct `<name>_duration` strings. -/
lemma duration_name_ne (q a : String) (h : q ≠ a) : q ++ "_duration" ≠ a ++ "_duration" := by
  intro he
  apply h
  apply String.ext
  have : (q ++ "_duration").data = (a ++ "_duration").data := by rw [he]
  rw [String.data_append, String.data_append] at this
  exact List.append_cancel_right this

/-- Probes with names other than `a` contribute no error entry named `a`. -/
lemma countP_err_zero (a : String) :
    ∀ (l : List ProbeRun), (∀ q ∈ l, q.name ≠ a) →
      (l.flatMap errContribution).countP (fun c => c.Check == a) = 0 := by
  intro l
  induction l with
  | nil => intro _; simp
  | cons q l ih =>
    intro hq
    rw [List.flatMap_cons, List.countP_append, ih (fun r hr => hq r (List.mem_cons_of_mem q hr))]
    have hqa : q.name ≠ a := hq q (List.mem_cons_self q l)
    cases ho : q.outcome with
    | none => simp [errContribution, ho]
    | some e =>
      by_cases hc : q.ctxErrAtMerge
      · simp [errContribution, ho, hc]
      · simp [errContribution, ho, hc, List.countP_cons, hqa]

/-- Probes with names other than `a`, none of whose own measurements are
named `a_duration`, contribute no measurement named `a ++ "_duration"`. -/
lemma countP_meas_zero (a : String) :
    ∀ (l : List ProbeRun),
      (∀ q ∈ l, q.name ≠ a) →
      (∀ q ∈ l, ∀ m ∈ q.measurements, m.Check ≠ a ++ "_duration") →
      (l.flatMap measContribution).countP (fun m => m.Check == a ++ "_duration") = 0 := by
  intro l
  induction l with
  | nil => intro _ _; simp
  | cons q l ih =>
    intro hq hm
    rw [List.flatMap_cons, List.countP_append,
      ih (fun r hr => hq r (List.mem_cons_of_mem q hr))
         (fun r hr => hm r (List.mem_cons_of_mem q hr))]
    cases ho : q.outcome with
    | some e => simp [measContribution, ho]
    | none =>
      have hqa := duration_name_ne q.name a (hq q (List.mem_cons_self q l))
      simp only [measContribution, ho, Nat.add_zero]
      rw [List.countP_append, List.countP_eq_zero.mpr, List.countP_cons]
      · simp [hqa]
      · intro m hmem
        simpa using hm q (List.mem_cons_self q l) m hmem

/-! ## Claims about the probe orchestrator -/

/-- **C5.** For a probe that returned an error: if the governing context
was already cancelled when its merge section ran, neither an error entry
bearing the probe's name nor a `<name>_duration` measurement appears in
the merged result; if the context was not cancelled, exactly one error
entry bearing the probe's name appears and still no `<name>_duration`
measurement.  (Probe names are distinct, and no probe returns a
measurement literally named like a duration entry of another.) -/
theorem claim5_error_vs_cancellation (ps : List ProbeRun) (p : ProbeRun) (e : String)
    (hp : p ∈ ps)
    (hnd : (ps.map ProbeRun.name).Nodup)
    (hmeas : ∀ q ∈ ps, ∀ m ∈ q.measurements, m.Check ≠ p.name ++ "_duration")
    (he : p.outcome = some e) :
    (p.ctxErrAtMerge = true →
      (doChecks ps).Errors.countP (fun c => c.Check == p.name) = 0
      ∧ (doChecks ps).Measurements.countP (fun m => m.Check == p.name ++ "_duration") = 0)
    ∧ (p.ctxErrAtMerge = false →
      (doChecks ps).Errors.countP (fun c => c.Check == p.name) = 1
      ∧ (doChecks ps).Measurements.countP (fun m => m.Check == p.name ++ "_duration") = 0) := by
  have hnodup : ps.Nodup := List.Nodup.of_map ProbeRun.name hnd
  have hinj : ∀ q ∈ ps, q.name = p.name → q = p :=
    fun q hq hname => List.inj_on_of_nodup_map hnd hq hp hname
  have hothers : ∀ q ∈ ps.erase p, q.name ≠ p.name := by
    intro q hq hname
    exact ((hnodup.mem_erase_iff).mp hq).1 (hinj q (List.mem_of_mem_erase hq) hname)
  have hperm : ps.Perm (p :: ps.erase p) := List.perm_cons_erase hp
  have herr : (doChecks ps).Errors.countP (fun c => c.Check == p.name)
      = (errContribution p).countP (fun c => c.Check == p.name) := by
    unfold doChecks
    rw [doChecks_errors ps ⟨[], []⟩]
    simp only [List.nil_append]
    rw [List.Perm.countP_eq _ (hperm.flatMap_right errContribution), List.flatMap_cons,
      List.countP_append, countP_err_zero p.name (ps.erase p) hothers]
    omega
  have hmeas0 : (doChecks ps).Measurements.countP
      (fun m => m.Check == p.name ++ "_duration")
      = (measContribution p).countP (fun m => m.Check == p.name ++ "_duration") := by
    unfold doChecks
    rw [doChecks_measurements ps ⟨[], []⟩]
    simp only [List.nil_append]
    rw [List.Perm.countP_eq _ (hperm.flatMap_right measContribution), List.flatMap_cons,
      List.countP_append,
      countP_meas_zero p.name (ps.erase p) hothers
        (fun q hq => hmeas q (List.mem_of_mem_erase hq))]
    omega
  constructor
  · intro hc
    rw [herr, hmeas0]
    simp [errContribution, measContribution, he, hc]
  · intro hc
    rw [herr, hmeas0]
    simp [errContribution, measContribution, he, hc]

/-- **C5 witness.** A two-probe cycle: probe `db` failed while the
context was cancelled (suppressed entirely); probe `dns` failed while
the context was live (exactly one error entry, no duration). -/
theorem claim5_witness :
    ((⟨"db", some "x", [], 2, true⟩ : ProbeRun)
        ∈ [(⟨"db", some "x", [], 2, true⟩ : ProbeRun), ⟨"dns", some "y", [], 3, false⟩])
    ∧ (doChecks [(⟨"db", some "x", [], 2, true⟩ : ProbeRun),
          ⟨"dns", some "y", [], 3, false⟩]).Errors.countP (fun c => c.Check == "db") = 0
    ∧ (doChecks [(⟨"db", some "x", [], 2, true⟩ : ProbeRun),
          ⟨"dns", some "y", [], 3, false⟩]).Errors.countP (fun c => c.Check == "dns") = 1 := by
  refine ⟨by decide, ?_, ?_⟩
  · exact ((claim5_error_vs_cancellation
      [⟨"db", some "x", [], 2, true⟩, ⟨"dns", some "y", [], 3, false⟩]
      ⟨"db", some "x", [], 2, true⟩ "x" (by decide) (by decide)
      (by intro q hq m hm; revert hm; revert m; revert hq; revert q; decide)
      rfl).1 rfl).1
  · exact ((claim5_error_vs_cancellation
      [⟨"db", some "x", [], 2, true⟩, ⟨"dns", some "y", [], 3, false⟩]
      ⟨"dns", some "y", [], 3, false⟩ "y" (by decide) (by decide)
      (by intro q hq m hm; revert hm; revert m; revert hq; revert q; decide)
      rfl).2 rfl).1

/-- **C6.** The merged result contains exactly one entry per
non-suppressed probe outcome: the error list is precisely the
concatenation, in lock-acquisition order, of the per-probe error
contributions (one labelled entry per failing non-suppressed probe,
nothing otherwise), and the measurement list precisely the per-probe
measurement contributions (the probe's measurements plus exactly one
`<name>_duration` entry per succeeding probe); for any two completion
orderings of the same probes the merged lists are permutations of each
other — no outcome is lost or duplicated. -/
theorem claim6_merge_complete (ps qs : List ProbeRun) (hperm : ps.Perm qs) :
    (doChecks ps).Errors = ps.flatMap errContribution
    ∧ (doChecks ps).Measurements = ps.flatMap measContribution
    ∧ (doChecks ps).Errors.Perm (doChecks qs).Errors
    ∧ (doChecks ps).Measurements.Perm (doChecks qs).Measurements := by
  have he : ∀ l : List ProbeRun, (doChecks l).Errors = l.flatMap errContribution := by
    intro l; unfold doChecks; rw [doChecks_errors l ⟨[], []⟩]; simp
  have hm : ∀ l : List ProbeRun, (doChecks l).Measurements = l.flatMap measContribution := by
    intro l; unfold doChecks; rw [doChecks_measurements l ⟨[], []⟩]; simp
  refine ⟨he ps, hm ps, ?_, ?_⟩
  · rw [he ps, he qs]; exact hperm.flatMap_right _
  · rw [hm ps, hm qs]; exact hperm.flatMap_right _

/-- **C6 witness.** Two orderings of the same two probes merge to
permuted results. -/
theorem claim6_witness :
    ([(⟨"db", some "x", [], 2, false⟩ : ProbeRun), ⟨"http", none, [⟨"rtt", 3⟩], 9, false⟩].Perm
        [⟨"http", none, [⟨"rtt", 3⟩], 9, false⟩, ⟨"db", some "x", [], 2, false⟩])
    ∧ (doChecks [(⟨"db", some "x", [], 2, false⟩ : ProbeRun),
          ⟨"http", none, [⟨"rtt", 3⟩], 9, false⟩]).Errors.Perm
        (doChecks [(⟨"http", none, [⟨"rtt", 3⟩], 9, false⟩ : ProbeRun),
          ⟨"db", some "x", [], 2, false⟩]).Errors :=
  ⟨by decide,
   (claim6_merge_complete
     [⟨"db", some "x", [], 2, false⟩, ⟨"http", none, [⟨"rtt", 3⟩], 9, false⟩]
     [⟨"http", none, [⟨"rtt", 3⟩], 9, false⟩, ⟨"db", some "x", [], 2, false⟩]
     (by decide)).2.2.1⟩

/-! ## Lemmas about the gap analyzer -/

/-- Nothing the guarded flush emits carries an empty app id. -/
lemma gapFlush_nonempty (st : GapState) : ∀ e ∈ gapFlush st, e.1 ≠ "" := by
  intro e he
  unfold gapFlush at he
  split at he
  · rename_i h
    simp only [List.mem_singleton] at he
    subst he
    exact h.1
  · simp at he

/-- Nothing the scan emits, from any state, carries an empty app id. -/
lemma gapLoop_nonempty : ∀ (rows : List (String × Int)) (st : GapState),
    ∀ e ∈ gapLoop st rows, e.1 ≠ "" := by
  intro rows
  induction rows with
  | nil => intro st e he; exact gapFlush_nonempty st e he
  | cons r rows ih =>
    intro st e he
    obtain ⟨a, t⟩ := r
    simp only [gapLoop] at he
    rcases List.mem_append.mp he with h | h
    · unfold gapStep at h
      split at h
      · exact gapFlush_nonempty st e (by simpa using h)
      · by_cases hlt : st.maxInterval < t - st.lastTS <;> simp [hlt] at h
    · exact ih _ e h

/-- The same-app branch of one row-loop iteration. -/
lemma gapStep_same (st : GapState) (a : String) (u : Int) (hst : st.lastAppID = a) :
    gapStep st a u =
      (⟨a, u,
        if st.maxInterval < u - st.lastTS then u - st.lastTS else st.maxInterval,
        if st.maxInterval < u - st.lastTS then u else st.maxIntervalTS⟩, []) := by
  subst hst
  unfold gapStep
  rw [if_neg (by simp)]
  split <;> rename_i h <;> simp [h]

/-- Rows of the app currently being tracked emit nothing and just fold
the state forward. -/
lemma gapLoop_sameApp (a : String) : ∀ (ts : List Int) (st : GapState)
    (rest : List (String × Int)), st.lastAppID = a →
    gapLoop st (ts.map (fun u => (a, u)) ++ rest)
      = gapLoop (ts.foldl (fun s u => (gapStep s a u).1) st) rest := by
  intro ts
  induction ts with
  | nil => intro st rest _; simp
  | cons u ts ih =>
    intro st rest hst
    simp only [List.map_cons, List.cons_append, gapLoop]
    rw [gapStep_same st a u hst]
    simp only [List.nil_append, List.foldl_cons]
    rw [gapStep_same st a u hst]
    exact ih _ rest rfl

/-- The in-block state fold agrees with `blockFoldStep` on the
`(lastTS, maxInterval, maxIntervalTS)` components and keeps the app id. -/
lemma gapFold_blockFold (a : String) : ∀ (ts : List Int) (last mi mts : Int),
    ts.foldl (fun s u => (gapStep s a u).1) ⟨a, last, mi, mts⟩
      = ⟨a, (ts.foldl blockFoldStep (last, mi, mts)).1,
          (ts.foldl blockFoldStep (last, mi, mts)).2.1,
          (ts.foldl blockFoldStep (last, mi, mts)).2.2⟩ := by
  intro ts
  induction ts with
  | nil => intro last mi mts; rfl
  | cons u ts ih =>
    intro last mi mts
    rw [List.foldl_cons, List.foldl_cons, gapStep_same _ a u rfl]
    simp only
    by_cases h : mi < u - last
    · simpa [blockFoldStep, h] using ih u (u - last) u
    · simpa [blockFoldStep, h] using ih u mi mts

/-- Entering a block of a different app flushes the previous app's
record and scans the block from the reset state. -/
lemma gapLoop_block (st : GapState) (a : String) (t : Int) (ts : List Int)
    (rest : List (String × Int)) (hne : a ≠ st.lastAppID) :
    gapLoop st ((a, t) :: (ts.map (fun u => (a, u)) ++ rest))
      = gapFlush st ++ gapLoop ⟨a, (blockFold t ts).1, (blockFold t ts).2.1,
          (blockFold t ts).2.2⟩ rest := by
  simp only [gapLoop]
  have h1 : gapStep st a t = (⟨a, t, -1, t⟩, gapFlush st) := by
    unfold gapStep
    rw [if_pos hne]
  rw [h1]
  simp only
  rw [gapLoop_sameApp a ts ⟨a, t, -1, t⟩ rest rfl, gapFold_blockFold]
  rfl

/-- The flush of a block-end state is exactly what `emitOf` yields for
that block. -/
lemma gapFlush_blockEnd (a : String) (t : Int) (ts : List Int) :
    gapFlush ⟨a, (blockFold t ts).1, (blockFold t ts).2.1, (blockFold t ts).2.2⟩
      = (emitOf (a, t, ts)).toList := by
  unfold gapFlush emitOf
  by_cases h : a ≠ "" ∧ 0 < (blockFold t ts).2.1
  · rw [if_pos h, if_pos h]
    rfl
  · rw [if_neg h, if_neg h]
    rfl

/-- The scan over a stream of app blocks, started at a state whose
tracked app differs from the first block's, flushes the started state
and then emits exactly `emitOf` of each block in order. -/
lemma gapLoop_blocks : ∀ (blocks : List (String × Int × List Int)) (st : GapState),
    (blocks.map Prod.fst).Nodup →
    (∀ b0 ∈ blocks.head?, b0.1 ≠ st.lastAppID) →
    gapLoop st (streamOf blocks) = gapFlush st ++ blocks.filterMap emitOf := by
  intro blocks
  induction blocks with
  | nil => intro st _ _; simp [streamOf, gapLoop]
  | cons b bs ih =>
    intro st hnd hhead
    obtain ⟨a, t, ts⟩ := b
    have hne : a ≠ st.lastAppID := hhead (a, t, ts) rfl
    have hstream : streamOf ((a, t, ts) :: bs)
        = (a, t) :: (ts.map (fun u => (a, u)) ++ streamOf bs) := by
      simp [streamOf]
    rw [hstream, gapLoop_block st a t ts _ hne]
    have hnd' : (bs.map Prod.fst).Nodup := (List.nodup_cons.mp hnd).2
    have hnotmem : a ∉ bs.map Prod.fst := (List.nodup_cons.mp hnd).1
    rw [ih _ hnd' ?_]
    · rw [gapFlush_blockEnd a t ts, List.filterMap_cons]
      cases he : emitOf (a, t, ts) <;> simp [he]
    · intro b0 hb0
      intro heq
      have heq2 : b0.1 = a := heq
      exact hnotmem (heq2 ▸ List.mem_map_of_mem Prod.fst (List.mem_of_mem_head? hb0))

/-- `AnalyzeLongestGapPerApp` on a grouped stream emits exactly
`emitOf` of each block, in block order. -/
lemma analyze_blocks (blocks : List (String × Int × List Int))
    (hnd : (blocks.map Prod.fst).Nodup) :
    AnalyzeLongestGapPerApp (streamOf blocks) = blocks.filterMap emitOf := by
  cases blocks with
  | nil => rfl
  | cons b bs =>
    obtain ⟨a, t, ts⟩ := b
    by_cases ha : a = ""
    · subst ha
      unfold AnalyzeLongestGapPerApp
      have hstream : streamOf (("", t, ts) :: bs)
          = ((t :: ts).map (fun u => ("", u))) ++ streamOf bs := by
        simp [streamOf]
      rw [hstream, gapLoop_sameApp "" (t :: ts) gapInit (streamOf bs) rfl]
      have hinit : (gapInit : GapState) = ⟨"", 0, -1, 0⟩ := rfl
      rw [hinit, gapFold_blockFold]
      have hnd' : (bs.map Prod.fst).Nodup := (List.nodup_cons.mp hnd).2
      have hnotmem : "" ∉ bs.map Prod.fst := (List.nodup_cons.mp hnd).1
      rw [gapLoop_blocks bs _ hnd' ?_]
      · rw [List.filterMap_cons]
        have hemit : emitOf ("", t, ts) = none := by simp [emitOf]
        rw [hemit]
        have hflush : gapFlush ⟨"", ((t :: ts).foldl blockFoldStep (0, -1, 0)).1,
            ((t :: ts).foldl blockFoldStep (0, -1, 0)).2.1,
            ((t :: ts).foldl blockFoldStep (0, -1, 0)).2.2⟩ = [] := by
          simp [gapFlush]
        rw [hflush, List.nil_append]
      · intro b0 hb0
        intro heq
        have heq2 : b0.1 = "" := heq
        exact hnotmem (heq2 ▸ List.mem_map_of_mem Prod.fst (List.mem_of_mem_head? hb0))
    · unfold AnalyzeLongestGapPerApp
      rw [gapLoop_blocks ((a, t, ts) :: bs) gapInit hnd ?_]
      · have : gapFlush gapInit = [] := by simp [gapFlush, gapInit]
        rw [this, List.nil_append]
      · intro b0 hb0
        cases hb0
        exact ha

/-- An emitted record carries the app id of its source block. -/
lemma emitOf_fst {b : String × Int × List Int} {e : String × Int × Int}
    (h : emitOf b = some e) : e.1 = b.1 := by
  unfold emitOf at h
  split at h
  · cases h; rfl
  · cases h

/-- An emitted record is nonempty-named and carries the block-fold
maximal interval and its timestamp. -/
lemma emitOf_some {b : String × Int × List Int} {e : String × Int × Int}
    (h : emitOf b = some e) :
    b.1 ≠ "" ∧ 0 < (blockFold b.2.1 b.2.2).2.1
      ∧ e = (b.1, (blockFold b.2.1 b.2.2).2.1, (blockFold b.2.1 b.2.2).2.2) := by
  unfold emitOf at h
  split at h
  · rename_i hc
    cases h
    exact ⟨hc.1, hc.2, rfl⟩
  · cases h

/-- Blocks named other than `a` contribute no emission named `a`. -/
lemma filterMap_emit_zero (a : String) : ∀ (bs : List (String × Int × List Int)),
    a ∉ bs.map Prod.fst →
    (bs.filterMap emitOf).countP (fun e => e.1 == a) = 0 := by
  intro bs hmem
  rw [List.countP_eq_zero]
  intro e he
  obtain ⟨b, hb, hbe⟩ := List.mem_filterMap.mp he
  have h1 := emitOf_fst hbe
  simp only [beq_iff_eq]
  intro heq
  have hba : b.1 = a := by rw [← h1, heq]
  exact hmem (hba ▸ List.mem_map_of_mem Prod.fst hb)

/-- At most one emission per app id over a stream of uniquely-named
blocks. -/
lemma filterMap_emit_le_one (a : String) : ∀ (blocks : List (String × Int × List Int)),
    (blocks.map Prod.fst).Nodup →
    (blocks.filterMap emitOf).countP (fun e => e.1 == a) ≤ 1 := by
  intro blocks
  induction blocks with
  | nil => intro _; simp
  | cons b bs ih =>
    intro hnd
    have hnotmem : b.1 ∉ bs.map Prod.fst := (List.nodup_cons.mp hnd).1
    have hnd' : (bs.map Prod.fst).Nodup := (List.nodup_cons.mp hnd).2
    rw [List.filterMap_cons]
    cases hemit : emitOf b with
    | none => exact ih hnd'
    | some e =>
      rw [List.countP_cons]
      by_cases hea : (e.1 == a) = true
      · have hb1 : b.1 = a := by
          have := emitOf_fst hemit
          rw [beq_iff_eq] at hea
          rw [← this, hea]
        rw [filterMap_emit_zero a bs (hb1 ▸ hnotmem), hea]
        simp
      · simp only [hea, if_false]
        simpa using ih hnd'

/-- The `maxInterval` component of the block fold is the fold of `max`
over the block's adjacent gaps. -/
lemma blockFold_max : ∀ (ts : List Int) (last mi mts : Int),
    (ts.foldl blockFoldStep (last, mi, mts)).2.1 = (blockGaps last ts).foldl max mi := by
  intro ts
  induction ts with
  | nil => intro last mi mts; rfl
  | cons u us ih =>
    intro last mi mts
    have hg : blockGaps last (u :: us) = (u - last) :: blockGaps u us := by
      simp [blockGaps]
    rw [List.foldl_cons, hg, List.foldl_cons]
    by_cases h : mi < u - last
    · rw [show blockFoldStep (last, mi, mts) u = (u, u - last, u) by
        simp [blockFoldStep, h], ih]
      congr 1
      exact (max_eq_right (le_of_lt h)).symm
    · rw [show blockFoldStep (last, mi, mts) u = (u, mi, mts) by
        simp [blockFoldStep, h], ih]
      congr 1
      exact (max_eq_left (not_lt.mp h)).symm

/-- Positivity of a running `max` fold. -/
lemma foldl_max_pos : ∀ (l : List Int) (mi : Int),
    0 < l.foldl max mi ↔ 0 < mi ∨ ∃ g ∈ l, 0 < g := by
  intro l
  induction l with
  | nil => intro mi; simp
  | cons g l ih =>
    intro mi
    rw [List.foldl_cons, ih]
    simp only [lt_max_iff, List.mem_cons]
    constructor
    · rintro (h | h)
      · rcases h with h | h
        · exact Or.inl h
        · exact Or.inr ⟨g, Or.inl rfl, h⟩
      · obtain ⟨x, hx, hx0⟩ := h
        exact Or.inr ⟨x, Or.inr hx, hx0⟩
    · rintro (h | ⟨x, hx | hx, hx0⟩)
      · exact Or.inl (Or.inl h)
      · exact Or.inl (Or.inr (hx ▸ hx0))
      · exact Or.inr ⟨x, hx, hx0⟩

/-- Full characterisation of the block fold's `(maxInterval,
maxIntervalTS)` pair: either no gap exceeded the initial accumulator
(which is then returned unchanged), or the pair is the first-attained
maximum of the adjacent gaps, strictly above the initial accumulator. -/
lemma blockFold_firstMax : ∀ (ts : List Int) (last mi mts : Int),
    ((ts.foldl blockFoldStep (last, mi, mts)).2.1 = mi
      ∧ (ts.foldl blockFoldStep (last, mi, mts)).2.2 = mts
      ∧ ∀ u ∈ blockGaps last ts, u ≤ mi)
    ∨ (mi < (ts.foldl blockFoldStep (last, mi, mts)).2.1
      ∧ (∀ u ∈ blockGaps last ts, u ≤ (ts.foldl blockFoldStep (last, mi, mts)).2.1)
      ∧ ∃ k : Nat,
          (blockGaps last ts)[k]? = some ((ts.foldl blockFoldStep (last, mi, mts)).2.1)
          ∧ ts[k]? = some ((ts.foldl blockFoldStep (last, mi, mts)).2.2)
          ∧ ∀ j : Nat, j < k → ∀ u, (blockGaps last ts)[j]? = some u
              → u < (ts.foldl blockFoldStep (last, mi, mts)).2.1) := by
  intro ts
  induction ts with
  | nil => intro last mi mts; exact Or.inl ⟨rfl, rfl, by simp [blockGaps]⟩
  | cons u us ih =>
    intro last mi mts
    have hg : blockGaps last (u :: us) = (u - last) :: blockGaps u us := by
      simp [blockGaps]
    rw [List.foldl_cons, hg]
    by_cases h : mi < u - last
    · rw [show blockFoldStep (last, mi, mts) u = (u, u - last, u) by
        simp [blockFoldStep, h]]
      rcases ih u (u - last) u with ⟨h1, h2, h3⟩ | ⟨h1, h2, k, hk1, hk2, hk3⟩
      · refine Or.inr ⟨by rw [h1]; exact h, ?_, 0, ?_, ?_, ?_⟩
        · intro v hv
          rcases List.mem_cons.mp hv with hv | hv
          · subst hv; rw [h1]
          · exact (h3 v hv).trans (le_of_eq h1.symm)
        · rw [List.getElem?_cons_zero, h1]
        · rw [List.getElem?_cons_zero, h2]
        · intro j hj; omega
      · refine Or.inr ⟨lt_trans h h1, ?_, k + 1, ?_, ?_, ?_⟩
        · intro v hv
          rcases List.mem_cons.mp hv with hv | hv
          · subst hv; exact le_of_lt h1
          · exact h2 v hv
        · rw [List.getElem?_cons_succ]; exact hk1
        · rw [List.getElem?_cons_succ]; exact hk2
        · intro j hj v hv
          cases j with
          | zero =>
            rw [List.getElem?_cons_zero] at hv
            cases hv
            exact h1
          | succ j =>
            rw [List.getElem?_cons_succ] at hv
            exact hk3 j (by omega) v hv
    · rw [show blockFoldStep (last, mi, mts) u = (u, mi, mts) by
        simp [blockFoldStep, h]]
      rcases ih u mi mts with ⟨h1, h2, h3⟩ | ⟨h1, h2, k, hk1, hk2, hk3⟩
      · refine Or.inl ⟨h1, h2, ?_⟩
        intro v hv
        rcases List.mem_cons.mp hv with hv | hv
        · subst hv; exact not_lt.mp h
        · exact h3 v hv
      · refine Or.inr ⟨h1, ?_, k + 1, ?_, ?_, ?_⟩
        · intro v hv
          rcases List.mem_cons.mp hv with hv | hv
          · subst hv; exact le_of_lt (lt_of_le_of_lt (not_lt.mp h) h1)
          · exact h2 v hv
        · rw [List.getElem?_cons_succ]; exact hk1
        · rw [List.getElem?_cons_succ]; exact hk2
        · intro j hj v hv
          cases j with
          | zero =>
            rw [List.getElem?_cons_zero] at hv
            cases hv
            exact lt_of_le_of_lt (not_lt.mp h) h1
          | succ j =>
            rw [List.getElem?_cons_succ] at hv
            exact hk3 j (by omega) v hv

/-! ## Claims about the gap analyzer -/

/-- **C9.** `AnalyzeLongestGapPerApp` never invokes the output callback
with an empty app id, on any input stream: both flush sites guard on the
tracked app id being non-empty. -/
theorem claim9_no_empty_app_emission (rows : List (String × Int)) :
    ∀ e ∈ AnalyzeLongestGapPerApp rows, e.1 ≠ "" :=
  fun e he => gapLoop_nonempty rows gapInit e he

/-- **C9 witness.** A stream with a positive gap emits, and the emitted
record's app id is non-empty. -/
theorem claim9_witness :
    ("a", (5 : Int), (5 : Int)) ∈ AnalyzeLongestGapPerApp [("a", 0), ("a", 5)]
    ∧ ("a", (5 : Int), (5 : Int)).1 ≠ "" :=
  ⟨by decide, claim9_no_empty_app_emission [("a", 0), ("a", 5)] ("a", 5, 5) (by decide)⟩

/-- **C2 counterexample.** The grouped, sorted stream
`[("", 0), ("", 5)]` exhibits a strictly positive adjacent gap for app
`""`, yet the scan emits nothing: the callback is not invoked "exactly
when some gap is strictly positive" for the empty app id. -/
theorem claim2_counterexample :
    (([("", (0 : Int), [5])] : List (String × Int × List Int)).map Prod.fst).Nodup
    ∧ tsAscending [0, 5] = true
    ∧ (∃ g ∈ blockGaps 0 [5], 0 < g)
    ∧ streamOf [("", (0 : Int), [5])] = [("", 0), ("", 5)]
    ∧ AnalyzeLongestGapPerApp [("", 0), ("", 5)] = [] := by
  refine ⟨by decide, by decide, ⟨5, by decide, by decide⟩, by decide, by decide⟩

/-- **C2 (amended).** For every grouped stream (given as blocks of rows
per app id, timestamps ascending within each block) the scan invokes the
callback at most once per app id; for every app with a **non-empty** id
it emits exactly when some adjacent gap of that app is strictly
positive; every emitted record carries the maximum adjacent gap of its
app together with the ending timestamp of the first-seen maximal gap
(strict `>`, ties to the earlier occurrence); and the stream
`[(A,t0), (A,t0+5), (A,t0+55), (B,t0+1)]` emits exactly
`(A, 50, t0+55)` and nothing for `B`.  (Rows with an empty app id never
emit; that is claim C9.) -/
theorem claim2_longest_gap (blocks : List (String × Int × List Int))
    (hnd : (blocks.map Prod.fst).Nodup)
    (hsorted : ∀ b ∈ blocks, tsAscending (b.2.1 :: b.2.2) = true) :
    (∀ a : String,
      (AnalyzeLongestGapPerApp (streamOf blocks)).countP (fun e => e.1 == a) ≤ 1)
    ∧ (∀ b ∈ blocks, b.1 ≠ "" →
        ((∃ e ∈ AnalyzeLongestGapPerApp (streamOf blocks), e.1 = b.1)
          ↔ ∃ g ∈ blockGaps b.2.1 b.2.2, 0 < g))
    ∧ (∀ b ∈ blocks, ∀ e ∈ AnalyzeLongestGapPerApp (streamOf blocks), e.1 = b.1 →
        isMaxGapEmission b.2.1 b.2.2 e.2.1 e.2.2)
    ∧ (∀ t0 : Int,
        AnalyzeLongestGapPerApp [("A", t0), ("A", t0 + 5), ("A", t0 + 55), ("B", t0 + 1)]
          = [("A", 50, t0 + 55)]) := by
  have hchar := analyze_blocks blocks hnd
  refine ⟨?_, ?_, ?_, ?_⟩
  · intro a
    rw [hchar]
    exact filterMap_emit_le_one a blocks hnd
  · intro b hb hb1
    rw [hchar]
    constructor
    · rintro ⟨e, he, he1⟩
      obtain ⟨b2, hb2, hbe⟩ := List.mem_filterMap.mp he
      have h1 := emitOf_fst hbe
      have hbb : b2 = b :=
        List.inj_on_of_nodup_map hnd hb2 hb (by rw [← h1, he1])
      subst hbb
      obtain ⟨_, hpos, _⟩ := emitOf_some hbe
      rw [blockFold, blockFold_max] at hpos
      rcases (foldl_max_pos _ _).mp hpos with h | h
      · norm_num at h
      · exact h
    · rintro ⟨g, hg, hg0⟩
      have hpos : 0 < (blockFold b.2.1 b.2.2).2.1 := by
        rw [blockFold, blockFold_max]
        exact (foldl_max_pos _ _).mpr (Or.inr ⟨g, hg, hg0⟩)
      have hemit : emitOf b
          = some (b.1, (blockFold b.2.1 b.2.2).2.1, (blockFold b.2.1 b.2.2).2.2) := by
        unfold emitOf
        rw [if_pos ⟨hb1, hpos⟩]
      exact ⟨_, List.mem_filterMap.mpr ⟨b, hb, hemit⟩, rfl⟩
  · intro b hb e he he1
    rw [hchar] at he
    obtain ⟨b2, hb2, hbe⟩ := List.mem_filterMap.mp he
    have h1 := emitOf_fst hbe
    have hbb : b2 = b :=
      List.inj_on_of_nodup_map hnd hb2 hb (by rw [← h1, he1])
    subst hbb
    obtain ⟨hneq, hpos, hee⟩ := emitOf_some hbe
    rw [hee]
    rcases blockFold_firstMax b2.2.2 b2.2.1 (-1) b2.2.1
      with ⟨h1f, _, _⟩ | ⟨_, h2f, k, hk1, hk2, hk3⟩
    · exfalso
      unfold blockFold at hpos
      rw [h1f] at hpos
      norm_num at hpos
    · exact ⟨h2f, k, hk1, hk2, hk3⟩
  · intro t0
    have hs : ([("A", t0), ("A", t0 + 5), ("A", t0 + 55), ("B", t0 + 1)] : List (String × Int))
        = streamOf [("A", t0, [t0 + 5, t0 + 55]), ("B", t0 + 1, [])] := by
      simp [streamOf]
    rw [hs, analyze_blocks _ (by simp)]
    have h1 : blockFold t0 [t0 + 5, t0 + 55] = (t0 + 55, 50, t0 + 55) := by
      unfold blockFold blockFoldStep
      norm_num
    have he1 : emitOf ("A", t0, [t0 + 5, t0 + 55]) = some ("A", 50, t0 + 55) := by
      unfold emitOf
      rw [h1]
      norm_num
      intro h
      exact absurd h (by decide)
    have he2 : emitOf ("B", t0 + 1, []) = none := by
      unfold emitOf blockFold
      norm_num
    rw [List.filterMap_cons, List.filterMap_cons, List.filterMap_nil, he1, he2]

/-- **C2 witness.** The theorem at the two-block stream
`[("A", [0, 5, 55]), ("B", [1])]`: app `A` emits (it has a positive
gap), and its emission is the first-seen maximal gap. -/
theorem claim2_witness :
    (([("A", (0 : Int), [5, 55]), ("B", 1, [])] : List (String × Int × List Int)).map
        Prod.fst).Nodup
    ∧ ((∃ e ∈ AnalyzeLongestGapPerApp
          (streamOf [("A", (0 : Int), [5, 55]), ("B", 1, [])]), e.1 = "A")
        ↔ ∃ g ∈ blockGaps 0 [5, 55], 0 < g) := by
  refine ⟨by decide, ?_⟩
  exact (claim2_longest_gap [("A", (0 : Int), [5, 55]), ("B", 1, [])]
    (by decide) (by decide)).2.1 ("A", (0 : Int), [5, 55]) (by decide) (by decide)

end SelfCheck
